import Mathlib

/-!
Shallow embedding of the Collibra-to-Cosmos knowledge-graph migration pipeline:
the Gremlin query builders and client of cosmosgremlinclient.py, the paginated
REST fetchers of collibrarestassets.py and collibrarestrelations.py, and the
orchestration loops of knowgraphcollibra.py, together with theorems settling
the specification claims about them.
-/

/-- Scalar values carried by the Python property dictionaries: strings,
numbers, booleans and None. -/
inductive GValue where
  | str (s : String)
  | num (n : Int)
  | bool (b : Bool)
  | null
  deriving DecidableEq, Repr

/-- Character-level model of the Python expression value.replace("'", "\\'")
used by CosmosGraphClient._format_properties and _escape_gremlin_string:
every single-quote character is replaced by a backslash followed by the
quote; all other characters pass through unchanged. -/
def escape_chars : List Char → List Char
  | [] => []
  | c :: cs => if c = '\'' then '\\' :: '\'' :: escape_chars cs else c :: escape_chars cs

/-- CosmosGraphClient._escape_gremlin_string: escape single quotes in a string. -/
def escape_gremlin_string (s : String) : String := String.mk (escape_chars s.data)

/-- How one property value is rendered inside a built Gremlin statement by
CosmosGraphClient._format_properties: strings are quoted with single quotes
escaped, booleans become true/false, and any other value (numbers, None) is
embedded in its Python textual form. -/
def render_value : GValue → String
  | GValue.str s => "'" ++ escape_gremlin_string s ++ "'"
  | GValue.bool b => if b then "true" else "false"
  | GValue.num n => toString n
  | GValue.null => "None"

/-- CosmosGraphClient._format_properties: one .property(key, value) clause per
entry of the property map, concatenated in mapping order (empty map gives ""). -/
def format_properties (props : List (String × GValue)) : String :=
  props.foldl (fun acc kv => acc ++ ".property('" ++ kv.1 ++ "', " ++ render_value kv.2 ++ ")") ""

/-- The statement built by CosmosGraphClient.create_vertex: g.addV with the
label embedded verbatim, followed by the formatted properties. -/
def create_vertex_query (label : String) (props : List (String × GValue)) : String :=
  "g.addV('" ++ label ++ "')" ++ format_properties props

/-- The statement built by CosmosGraphClient.create_edge: locate the source
vertex by id, add an edge to the target vertex located by id, then append the
formatted properties.  The two ids and the label are embedded verbatim. -/
def create_edge_query (from_vertex_id to_vertex_id label : String)
    (props : List (String × GValue)) : String :=
  "g.V('" ++ from_vertex_id ++ "').addE('" ++ label ++ "').to(g.V('" ++ to_vertex_id ++ "'))"
    ++ format_properties props

/-- CosmosGraphClient._execute_query: when the client is not connected it
returns an empty list without submitting anything; otherwise it submits the
statement to the store (modelled by the exec oracle) and returns the result
list, or an empty list when execution raises. -/
def execute_query {ρ : Type} (connected : Bool) (exec : String → Option (List ρ))
    (q : String) : List ρ :=
  if connected then (exec q).getD [] else []

/-- CosmosGraphClient.create_vertex: returns empty when the traversal source is
not initialized, otherwise builds the vertex-creation statement and executes it. -/
def create_vertex {ρ : Type} (connected : Bool) (exec : String → Option (List ρ))
    (label : String) (props : List (String × GValue)) : List ρ :=
  if connected then execute_query connected exec (create_vertex_query label props) else []

/-- CosmosGraphClient.create_edge: returns empty when the traversal source is
not initialized, otherwise builds the edge-creation statement and executes it. -/
def create_edge {ρ : Type} (connected : Bool) (exec : String → Option (List ρ))
    (from_vertex_id to_vertex_id label : String) (props : List (String × GValue)) : List ρ :=
  if connected then
    execute_query connected exec (create_edge_query from_vertex_id to_vertex_id label props)
  else []

/-- A vertex of the graph store: its Cosmos document id, its label and its
property map (in insertion order).  In Cosmos the id is itself addressable as
the property named id. -/
structure Vertex where
  id : String
  label : String
  props : List (String × GValue)
  deriving DecidableEq, Repr

/-- Association-list lookup of a property by key (first match wins, as in a
Python dict where keys are unique). -/
def lookupProp : List (String × GValue) → String → Option GValue
  | [], _ => none
  | kv :: rest, k => if kv.1 = k then some kv.2 else lookupProp rest k

/-- Single-cardinality property write: replace the existing binding for the
key, or append a new one.  Models a Gremlin .property step on a Cosmos vertex. -/
def setProp : List (String × GValue) → String → GValue → List (String × GValue)
  | [], k, v => [(k, v)]
  | kv :: rest, k, v => if kv.1 = k then (k, v) :: rest else kv :: setProp rest k v

/-- Reading a property of a stored vertex.  Cosmos exposes the document id as
the property named id, so a .has(id, x) filter matches the vertex id. -/
def getProp (v : Vertex) (k : String) : Option GValue :=
  if k = "id" then some (GValue.str v.id) else lookupProp v.props k

/-- Apply a list of .property clauses to a property map, left to right. -/
def applyClauses (props clauses : List (String × GValue)) : List (String × GValue) :=
  clauses.foldl (fun p kv => setProp p kv.1 kv.2) props

/-- Abstract syntax of the two mutation statements built by
CosmosGraphClient.upsert_vertex: the update statement
g.V(vertexId).has(partitionKey, pkValue) followed by property clauses, and the
creation statement g.addV(label).property(id, idValue).property(pk, label)
followed by property clauses. -/
inductive GremlinQuery where
  | update (vertexId pkValue : String) (clauses : List (String × GValue))
  | create (label idValue pkField : String) (clauses : List (String × GValue))
  deriving DecidableEq, Repr

/-- The filter used by CosmosGraphClient._find_vertex: label, partition-key
property equal to the label, and the unique property equal to the sought value. -/
def vertexFound (pk label uname uvalue : String) (v : Vertex) : Prop :=
  v.label = label ∧ getProp v pk = some (GValue.str label)
    ∧ getProp v uname = some (GValue.str uvalue)

instance (pk label uname uvalue : String) (v : Vertex) :
    Decidable (vertexFound pk label uname uvalue v) := by
  unfold vertexFound; infer_instance

/-- CosmosGraphClient._find_vertex: filter the store by label, partition key
and unique property, limited to one match; return the first hit if any. -/
def find_vertex (pk : String) (st : List Vertex) (label uname uvalue : String) : Option Vertex :=
  (st.filter fun v => vertexFound pk label uname uvalue v).head?

/-- Membership of a vertex in the extension of a (label, unique-property-name,
unique-property-value) triple; the uniqueness invariant counts these. -/
def uniqMatch (uname label uvalue : String) (v : Vertex) : Prop :=
  v.label = label ∧ getProp v uname = some (GValue.str uvalue)

instance (uname label uvalue : String) (v : Vertex) :
    Decidable (uniqMatch uname label uvalue v) := by
  unfold uniqMatch; infer_instance

/-- Number of vertices in the store carrying the given label and unique
property value. -/
def matchCount (st : List Vertex) (uname label uvalue : String) : Nat :=
  st.countP fun v => uniqMatch uname label uvalue v

/-- The uniqueness invariant of the data model: for any (label,
unique-property-name, unique-property-value) triple, at most one vertex exists. -/
def uniqInv (st : List Vertex) (uname : String) : Prop :=
  ∀ label uvalue : String, matchCount st uname label uvalue ≤ 1

/-- Every stored vertex has its partition-key property equal to its label.
Vertices written by upsert_vertex always satisfy this, and _find_vertex can
only see vertices satisfying it. -/
def pkConform (st : List Vertex) (pk : String) : Prop :=
  ∀ v ∈ st, getProp v pk = some (GValue.str v.label)

/-- Every stored vertex has a non-empty id (upsert_vertex treats an empty id on
a found vertex as store corruption). -/
def idsNonempty (st : List Vertex) : Prop :=
  ∀ v ∈ st, v.id ≠ ""

/-- Semantics of executing a built upsert statement against the store: the
update statement rewrites the properties of the vertices it selects by id and
partition key and returns the first selected vertex (updated); the creation
statement appends a fresh vertex whose id is the id value, whose partition-key
property is the label, and whose remaining properties come from the clauses. -/
def execQuery (pk : String) (st : List Vertex) : GremlinQuery → List Vertex × Option Vertex
  | GremlinQuery.update vid pkValue clauses =>
      let upd : Vertex → Vertex := fun v => { v with props := applyClauses v.props clauses }
      let sel : Vertex → Prop := fun v => v.id = vid ∧ getProp v pk = some (GValue.str pkValue)
      (st.map fun v => if sel v then upd v else v,
       ((st.filter fun v => sel v).head?).map upd)
  | GremlinQuery.create label idv pkf clauses =>
      let nv : Vertex := ⟨idv, label, applyClauses [(pkf, GValue.str label)] clauses⟩
      (st ++ [nv], some nv)

/-- The filtered_properties dictionary of CosmosGraphClient.upsert_vertex: the
input properties minus any id/label keys, with the unique property appended
when it is not already present. -/
def filtered_properties (properties : List (String × GValue)) (uname uvalue : String) :
    List (String × GValue) :=
  let fp := properties.filter fun kv => kv.1 ≠ "id" ∧ kv.1 ≠ "label"
  if uname ∈ fp.map Prod.fst then fp else fp ++ [(uname, GValue.str uvalue)]

/-- The property clauses of the update statement built by upsert_vertex: every
filtered property except the unique property, the partition key and id. -/
def update_clauses (fp : List (String × GValue)) (uname pk : String) :
    List (String × GValue) :=
  fp.filter fun kv => kv.1 ≠ uname ∧ kv.1 ≠ pk ∧ kv.1 ≠ "id"

/-- The property clauses of the creation statement built by upsert_vertex:
every filtered property except the partition key and id. -/
def create_clauses (fp : List (String × GValue)) (pk : String) : List (String × GValue) :=
  fp.filter fun kv => kv.1 ≠ pk ∧ kv.1 ≠ "id"

/-- Outcome of one upsert_vertex call: the store afterwards, the returned
value, the mutation statement that was built (if the call got that far), and
the number of query submissions that reached the store. -/
structure UpsertOutcome where
  store : List Vertex
  result : Option Vertex
  query : Option GremlinQuery
  calls : Nat
  deriving Repr

/-- CosmosGraphClient.upsert_vertex.  Validation rejects an empty label,
id_value or unique_property_name and a missing (None) unique_property_value,
returning None with no query issued.  Otherwise the vertex is looked up
(_find_vertex; when the client is disconnected the submission raises and is
caught, yielding no match and no network traffic); on a hit with a non-empty
id an update statement is built, on a miss a creation statement is built, and
the statement is executed, returning the first result or None. -/
def upsert_vertex (pk : String) (connected : Bool) (st : List Vertex)
    (label id_value uname : String) (uvalue : Option String)
    (properties : List (String × GValue)) : UpsertOutcome :=
  if label = "" ∨ id_value = "" ∨ uname = "" ∨ uvalue = none then
    ⟨st, none, none, 0⟩
  else
    let uv := uvalue.getD ""
    let fp := filtered_properties properties uname uv
    let existing := if connected then find_vertex pk st label uname uv else none
    let findCalls := if connected then 1 else 0
    match existing with
    | some v =>
        if v.id = "" then ⟨st, none, none, findCalls⟩
        else
          let q := GremlinQuery.update v.id label (update_clauses fp uname pk)
          if connected then
            let r := execQuery pk st q
            ⟨r.1, r.2, some q, findCalls + 1⟩
          else ⟨st, none, some q, findCalls⟩
    | none =>
        let q := GremlinQuery.create label id_value pk (create_clauses fp pk)
        if connected then
          let r := execQuery pk st q
          ⟨r.1, r.2, some q, findCalls + 1⟩
        else ⟨st, none, some q, findCalls⟩

/-- One upsert_vertex call of a sequential migration run: its label, id value,
unique property value and property map (the unique property name is fixed
across the run, as in knowgraphcollibra.py where it is always the id). -/
structure UpsertCall where
  label : String
  id_value : String
  uvalue : Option String
  props : List (String × GValue)

/-- Run a sequence of upsert_vertex calls left to right, threading the store. -/
def runUpserts (pk uname : String) (connected : Bool) (st : List Vertex)
    (calls : List UpsertCall) : List Vertex :=
  calls.foldl
    (fun s c => (upsert_vertex pk connected s c.label c.id_value uname c.uvalue c.props).store) st

/-- Consistency of one call with the uniqueness discipline: when the call is
valid, any binding of the unique property inside the supplied property map
agrees with the unique_property_value argument; when the unique property is
the id, the id value is the unique value; and when the unique property is the
partition key, the unique value is the label. -/
def callOK (pk uname : String) (c : UpsertCall) : Prop :=
  ∀ uv, c.uvalue = some uv →
    (∀ p ∈ c.props, p.1 = uname → p.2 = GValue.str uv)
    ∧ (uname = "id" → c.id_value = uv)
    ∧ (uname = pk → uv = c.label)

/-- A call that passes upsert_vertex validation. -/
def validCall (uname : String) (c : UpsertCall) : Prop :=
  c.label ≠ "" ∧ c.id_value ≠ "" ∧ uname ≠ "" ∧ c.uvalue ≠ none

/-- The pagination loop of get_all_collibra_assets_basic_auth
(collibrarestassets.py).  The store is modelled by an oracle mapping the index
of the issued request to its response, a (results, total) pair, or none when
the request raises or the body fails to decode.  Each iteration appends the
(offset, limit) pair embedded in the request URL to the request trace; on an
error the loop breaks and returns the records accumulated so far; otherwise
it extends the accumulator, stops once its length reaches the total reported
by the response, and else advances the offset by the page length.  The fuel
argument bounds the number of iterations (the Python loop can run forever on
a pathological server); theorems supply sufficient fuel. -/
def assetsLoop {α : Type} (resp : Nat → Option (List α × Nat)) (limit : Nat) :
    Nat → Nat → Nat → List α → List (Nat × Nat) → List α × List (Nat × Nat)
  | 0, _, _, acc, reqs => (acc, reqs)
  | fuel+1, i, offset, acc, reqs =>
    let reqs' := reqs ++ [(offset, limit)]
    match resp i with
    | none => (acc, reqs')
    | some (results, total) =>
        let acc' := acc ++ results
        if acc'.length ≥ total then (acc', reqs')
        else assetsLoop resp limit fuel (i+1) (offset + results.length) acc' reqs'

/-- get_all_collibra_assets_basic_auth: page size 100, starting offset 0.
Returns the retrieved assets and the trace of (offset, limit) request
parameters. -/
def get_all_collibra_assets_basic_auth {α : Type} (resp : Nat → Option (List α × Nat))
    (fuel : Nat) : List α × List (Nat × Nat) :=
  assetsLoop resp 100 fuel 0 0 [] []

/-- The pagination loop of get_paginated_data (collibrarestrelations.py).
total starts at 1 so the loop is entered, offset at 0, page size 1000.  While
fewer records than total have been collected: the params dict is updated with
the current offset and limit, but the HTTP request is sent with no query
parameters at all (line 43 of the source omits params; the call passing them
is commented out on line 42), so each trace entry is the empty parameter
list.  On a transport error the function returns the empty list, discarding
everything collected.  Otherwise total is reassigned from the response while
the offset is 0, the page is appended, and the offset advances by the page
length. -/
def relLoop {α : Type} (resp : Nat → Option (List α × Nat)) (limit : Nat) :
    Nat → Nat → Nat → Nat → List α → List (List (String × Nat)) →
    List α × List (List (String × Nat))
  | 0, _, _, _, acc, reqs => (acc, reqs)
  | fuel+1, i, offset, total, acc, reqs =>
    if acc.length < total then
      let reqs' := reqs ++ [([] : List (String × Nat))]
      match resp i with
      | none => ([], reqs')
      | some (results, t) =>
          let total' := if offset = 0 then t else total
          relLoop resp limit fuel (i+1) (offset + results.length) total'
            (acc ++ results) reqs'
    else (acc, reqs)

/-- get_paginated_data: the caller-supplied filter parameters are accepted (and
merged into the local params dict) but, mirroring the source, never reach the
issued requests.  Returns the records and the trace of query-parameter sets
actually attached to the outgoing requests. -/
def get_paginated_data {α : Type} (params : List (String × Nat))
    (resp : Nat → Option (List α × Nat)) (fuel : Nat) :
    List α × List (List (String × Nat)) :=
  relLoop resp 1000 fuel 0 0 1 [] []

/-- A well-behaved paginated server over a fixed record list: the i-th request
is answered with the i-th chunk of the records (page size limit) and the exact
total. -/
def chunkOracle {α : Type} (records : List α) (limit : Nat) :
    Nat → Option (List α × Nat) :=
  fun i => some ((records.drop (i * limit)).take limit, records.length)

/-- A paginated server that serves chunks for the first j requests and fails
(transport error / non-2xx) from request j onwards. -/
def chunkOracleFail {α : Type} (records : List α) (limit j : Nat) :
    Nat → Option (List α × Nat) :=
  fun i => if i < j then chunkOracle records limit i else none

/-- Number of batches of size m+1 needed to cover K items: the number of
delete calls of the drain loop and of page requests of a pagination run. -/
def batches (m K : Nat) : Nat :=
  if h : K = 0 then 0 else 1 + batches m (K - (m+1))
termination_by K
decreasing_by omega

/-- One observable store interaction of the drain loop in knowgraphcollibra.py:
a g.V().count() query observing a number of vertices, or a
g.V().limit(N).drop() deleting a batch. -/
inductive DrainOp where
  | count (observed : Nat)
  | del (batch : Nat)
  deriving DecidableEq, Repr

/-- Whether a drain-loop interaction is a delete call. -/
def isDel : DrainOp → Bool
  | DrainOp.del _ => true
  | _ => false

/-- The drop loop of knowgraphcollibra.py run against a store holding K
vertices with batch size m+1: count the vertices, stop when zero, otherwise
delete the next batch (the store removes at most m+1) and repeat.  Returns the
trace of store interactions and the number of vertices left at exit. -/
def drainRun (m K : Nat) : List DrainOp × Nat :=
  if h : K = 0 then ([DrainOp.count 0], K)
  else
    let step := drainRun m (K - (m+1))
    (DrainOp.count K :: DrainOp.del (min (m+1) K) :: step.1, step.2)
termination_by K
decreasing_by omega

/-- One record of get_all_collibra_relations as consumed by the orchestrator:
dict.get of the three identifier fields, each possibly absent. -/
structure Relation where
  source_id : Option String
  target_id : Option String
  relation_type_id : Option String
  deriving DecidableEq, Repr

/-- Python truthiness of an optional string: None and the empty string are
falsy. -/
def truthy : Option String → Bool
  | none => false
  | some s => decide (s ≠ "")

/-- Embedding of an optional identifier as a property value (None becomes
null). -/
def optValue : Option String → GValue
  | none => GValue.null
  | some s => GValue.str s

/-- A create_edge invocation recorded by the orchestrator model. -/
structure EdgeCall where
  from_vertex_id : String
  to_vertex_id : String
  label : String
  props : List (String × GValue)
  deriving DecidableEq, Repr

/-- The relatedTo edge the orchestrator creates for one relation record. -/
def relation_edge_call (rel : Relation) : EdgeCall :=
  ⟨rel.source_id.getD "", rel.target_id.getD "", "relatedTo",
    [("relationTypeId", optValue rel.relation_type_id)]⟩

/-- The relation loop at the end of knowgraphcollibra.py: for each fetched
relation, create a relatedTo edge from source to target carrying the relation
type id, but only when both source_id and target_id are truthy; otherwise the
record is skipped with no call and no error, and the loop continues. -/
def process_relations (rels : List Relation) : List EdgeCall :=
  rels.foldl
    (fun acc rel =>
      if truthy rel.source_id && truthy rel.target_id then acc ++ [relation_edge_call rel]
      else acc) []

/-- A concrete paginated server whose first response carries one record and
reports a total of 5, and whose second request fails: a minimal run on which
get_paginated_data discards the already-collected record. -/
def failAfterOnePage : Nat → Option (List Nat × Nat) :=
  fun i => if i = 0 then some ([0], 5) else none

/-- A concrete two-page server (each response carries one record, total 2)
used to exhibit the parameter sets attached to the issued requests. -/
def twoPageOracle : Nat → Option (List Nat × Nat) :=
  fun i => some ([i], 2)

/-- Every single quote in the output of the escaper is immediately preceded by
a backslash (the escaper writes a backslash in front of each quote it copies,
and never emits a quote first). -/
theorem escape_chars_quote_preceded (l : List Char) :
    ∀ i : Nat, (escape_chars l)[i]? = some '\'' →
      i ≠ 0 ∧ (escape_chars l)[i-1]? = some '\\' := by
  induction l with
  | nil => intro i h; simp [escape_chars] at h
  | cons c cs ih =>
    intro i h
    by_cases hc : c = '\''
    · subst hc
      simp only [escape_chars, if_pos rfl] at h ⊢
      match i with
      | 0 => simp at h
      | 1 => exact ⟨by omega, by simp⟩
      | n + 2 =>
        simp at h
        obtain ⟨hn, hprev⟩ := ih n h
        obtain ⟨m, rfl⟩ := Nat.exists_eq_succ_of_ne_zero hn
        refine ⟨by omega, ?_⟩
        simpa using hprev
    · simp only [escape_chars, if_neg hc] at h ⊢
      match i with
      | 0 =>
        simp at h
        exact absurd h hc
      | n + 1 =>
        simp at h
        obtain ⟨hn, hprev⟩ := ih n h
        obtain ⟨m, rfl⟩ := Nat.exists_eq_succ_of_ne_zero hn
        refine ⟨by omega, ?_⟩
        simpa using hprev

/-- C2 counterexample: the claim is false for edge creation.  create_edge
embeds its label argument verbatim: for the string value kno'ws the emitted
statement contains that single quote (at character index 19) preceded by the
letter o rather than by an escaping backslash. -/
theorem create_edge_label_quote_unescaped :
    create_edge_query "v1" "v2" "kno'ws" [] = "g.V('v1').addE('kno'ws').to(g.V('v2'))"
    ∧ (create_edge_query "v1" "v2" "kno'ws" []).data[19]? = some '\''
    ∧ (create_edge_query "v1" "v2" "kno'ws" []).data[18]? = some 'o'
    ∧ ¬ (create_edge_query "v1" "v2" "kno'ws" []).data[18]? = some '\\' := by
  refine ⟨by decide, by decide, by decide, by decide⟩

/-- Merging the clause prefix with an opening value quote. -/
theorem string_quote_merge (z : String) : "', " ++ ("'" ++ z) = "', '" ++ z := rfl

/-- Merging the clause prefix with the None literal. -/
theorem string_none_merge : ("', " ++ ("None" ++ ")") : String) = "', None)" := rfl

/-- C2 (amended): string property values formatted through _format_properties
have every embedded single quote immediately preceded by a backslash (at
least one: a backslash already present in the value is not itself escaped, so
the quote in a value ending backslash-quote ends up preceded by two
backslashes); booleans are embedded as true/false; numeric and null values are
embedded in their Python textual form.  The vertex and edge ids and the label
arguments of create_vertex and create_edge are embedded verbatim, without any
escaping. -/
theorem format_properties_escaping :
    (∀ (s : String) (i : Nat), (escape_gremlin_string s).data[i]? = some '\'' →
        i ≠ 0 ∧ (escape_gremlin_string s).data[i-1]? = some '\\')
    ∧ (∀ (k : String) (s : String),
        format_properties [(k, GValue.str s)]
          = ".property('" ++ k ++ "', '" ++ escape_gremlin_string s ++ "')")
    ∧ (∀ (k : String) (b : Bool),
        format_properties [(k, GValue.bool b)]
          = ".property('" ++ k ++ "', " ++ (if b then "true" else "false") ++ ")")
    ∧ (∀ (k : String) (n : Int),
        format_properties [(k, GValue.num n)]
          = ".property('" ++ k ++ "', " ++ toString n ++ ")")
    ∧ (∀ k : String, format_properties [(k, GValue.null)] = ".property('" ++ k ++ "', None)") := by
  refine ⟨?_, ?_, ?_, ?_, ?_⟩
  · intro s i h
    exact escape_chars_quote_preceded s.data i h
  · intro k s
    simp [format_properties, render_value, String.append_assoc, string_quote_merge]
  · intro k b
    cases b <;> simp [format_properties, render_value, String.append_assoc]
  · intro k n
    simp [format_properties, render_value, String.append_assoc]
  · intro k
    simp [format_properties, render_value, String.append_assoc, string_none_merge]

/-- Folding an accumulate-if loop over a list appends exactly the images of
the elements satisfying the guard, in order. -/
theorem foldl_guard_append {α β : Type} (p : α → Bool) (f : α → β) :
    ∀ (l : List α) (init : List β),
      l.foldl (fun acc x => if p x then acc ++ [f x] else acc) init
        = init ++ (l.filter p).map f := by
  intro l
  induction l with
  | nil => intro init; simp
  | cons x xs ih =>
    intro init
    cases h : p x <;> simp [List.foldl_cons, h, ih, List.filter_cons]

/-- C10: the orchestrator's relation loop creates a relatedTo edge exactly for
the relations whose source_id and target_id are both present and non-empty
(truthy), in order; relations failing the guard contribute nothing (silently
skipped) and the remaining relations are still processed. -/
theorem process_relations_characterization (rels : List Relation) :
    process_relations rels
      = ((rels.filter fun r => truthy r.source_id && truthy r.target_id).map
          relation_edge_call) := by
  unfold process_relations
  rw [foldl_guard_append]
  simp

/-- C9: every data operation invoked on a disconnected client fails closed:
execute returns an empty result list, create_vertex and create_edge return
empty result lists, and upsert_vertex returns None, leaves the store
untouched and submits no query; none of them raises (all are total). -/
theorem disconnected_operations_return_empty (ρ : Type) (exec : String → Option (List ρ))
    (q label from_id to_id : String) (props : List (String × GValue))
    (pk : String) (st : List Vertex) (l idv un : String) (uv : Option String)
    (ps : List (String × GValue)) :
    execute_query false exec q = []
    ∧ create_vertex false exec label props = []
    ∧ create_edge false exec from_id to_id label props = []
    ∧ (upsert_vertex pk false st l idv un uv ps).result = none
    ∧ (upsert_vertex pk false st l idv un uv ps).store = st
    ∧ (upsert_vertex pk false st l idv un uv ps).calls = 0 := by
  refine ⟨rfl, rfl, rfl, ?_, ?_, ?_⟩ <;>
    · unfold upsert_vertex
      split
      · rfl
      · rfl

/-- The batch count equals the ceiling of K divided by the batch size m+1. -/
theorem batches_eq (m K : Nat) : batches m K = (K + m) / (m + 1) := by
  rw [batches]
  split
  · rename_i h
    subst h
    symm
    exact Nat.div_eq_of_lt (by omega)
  · rename_i h
    rw [batches_eq m (K - (m+1))]
    rcases Nat.lt_or_ge K (m+1) with hK | hK
    · have h1 : K - (m+1) = 0 := by omega
      have h2 : m / (m+1) = 0 := Nat.div_eq_of_lt (by omega)
      have h3 : (K + m) / (m+1) = 1 :=
        Nat.div_eq_of_lt_le (by omega) (by omega)
      rw [h1]
      simp [h2, h3]
    · have h3 : K - (m+1) + m + (m+1) = K + m := by omega
      calc 1 + (K - (m+1) + m) / (m+1)
          = (K - (m+1) + m) / (m+1) + 1 := by omega
        _ = (K - (m+1) + m + (m+1)) / (m+1) := (Nat.add_div_right _ (by omega)).symm
        _ = (K + m) / (m+1) := by rw [h3]
termination_by K
decreasing_by omega

/-- The drain loop issues one delete call per batch. -/
theorem drain_del_count (m K : Nat) :
    ((drainRun m K).1.filter isDel).length = batches m K := by
  rw [drainRun, batches]
  split
  · simp [isDel]
  · simp [List.filter_cons, isDel, drain_del_count m (K - (m+1))]
    omega
termination_by K
decreasing_by omega

/-- The last store interaction of the drain loop is a count observing zero. -/
theorem drain_last_count_zero (m K : Nat) :
    (drainRun m K).1.getLast? = some (DrainOp.count 0) := by
  rw [drainRun]
  split
  · rfl
  · have ih := drain_last_count_zero m (K - (m+1))
    cases htr : (drainRun m (K - (m+1))).1 with
    | nil => rw [htr] at ih; simp at ih
    | cons a t =>
      rw [htr] at ih
      rw [List.getLast?_cons_cons, htr, List.getLast?_cons_cons]
      exact ih
termination_by K
decreasing_by omega

/-- The drain loop terminates with the store empty. -/
theorem drain_final_zero (m K : Nat) : (drainRun m K).2 = 0 := by
  rw [drainRun]
  split
  · rename_i h; exact h
  · exact drain_final_zero m (K - (m+1))
termination_by K
decreasing_by omega

/-- C8: draining a store of K vertices with batch size N = m+1 issues exactly
ceil(K/N) = (K + N - 1)/N delete calls, the final interaction is a count call
observing zero remaining vertices, and the loop exits with the store empty. -/
theorem drain_loop_correct (m K : Nat) :
    ((drainRun m K).1.filter isDel).length = (K + m) / (m + 1)
    ∧ (drainRun m K).1.getLast? = some (DrainOp.count 0)
    ∧ (drainRun m K).2 = 0 := by
  refine ⟨?_, drain_last_count_zero m K, drain_final_zero m K⟩
  rw [drain_del_count, batches_eq]

/-- C6 (amended): when label, id_value or unique_property_name is empty (or
missing), or unique_property_value is None, upsert_vertex reports failure
immediately: it returns None, issues zero query submissions and leaves the
store untouched.  (An empty-string unique_property_value is not caught by the
validation, which only tests it against None.) -/
theorem upsert_validation_rejects (pk : String) (connected : Bool) (st : List Vertex)
    (label id_value uname : String) (uvalue : Option String)
    (props : List (String × GValue))
    (h : label = "" ∨ id_value = "" ∨ uname = "" ∨ uvalue = none) :
    (upsert_vertex pk connected st label id_value uname uvalue props).result = none
    ∧ (upsert_vertex pk connected st label id_value uname uvalue props).calls = 0
    ∧ (upsert_vertex pk connected st label id_value uname uvalue props).store = st := by
  unfold upsert_vertex
  rw [if_pos h]
  exact ⟨rfl, rfl, rfl⟩

/-- Witness for the C6 theorem: a call with a None unique_property_value on a
connected client fails with no query issued. -/
theorem upsert_validation_rejects_witness :
    (("L" : String) = "" ∨ ("x" : String) = "" ∨ ("u" : String) = ""
      ∨ (none : Option String) = none)
    ∧ ((upsert_vertex "resourceType" true [] "L" "x" "u" none []).result = none
        ∧ (upsert_vertex "resourceType" true [] "L" "x" "u" none []).calls = 0
        ∧ (upsert_vertex "resourceType" true [] "L" "x" "u" none []).store = []) :=
  ⟨Or.inr (Or.inr (Or.inr rfl)),
   upsert_validation_rejects "resourceType" true [] "L" "x" "u" none []
     (Or.inr (Or.inr (Or.inr rfl)))⟩

/-- C6 counterexample: an empty-string unique_property_value is an empty
required input, yet the call is not rejected: upsert_vertex issues the lookup
and the creation statement (two query submissions) and returns a created
vertex instead of failing. -/
theorem upsert_empty_unique_value_not_rejected :
    (upsert_vertex "resourceType" true [] "L" "x" "u" (some "") []).calls = 2
    ∧ (upsert_vertex "resourceType" true [] "L" "x" "u" (some "") []).result
        = some ⟨"x", "L", [("resourceType", GValue.str "L"), ("u", GValue.str "")]⟩ := by
  exact ⟨rfl, rfl⟩

/-- Filtering a property list by a key predicate and projecting the keys is
the same as projecting the keys and filtering. -/
theorem map_fst_filter (q : String → Bool) (l : List (String × GValue)) :
    (l.filter fun kv => q kv.1).map Prod.fst = (l.map Prod.fst).filter q := by
  induction l with
  | nil => rfl
  | cons kv t ih => cases h : q kv.1 <;> simp [List.filter_cons, h, ih]

/-- In a duplicate-free list, a filtered element occurs exactly once and an
excluded or absent one not at all. -/
theorem count_filter_nodup (q : String → Bool) (l : List String) (hnd : l.Nodup)
    (k : String) :
    (l.filter q).count k = if k ∈ l ∧ q k = true then 1 else 0 := by
  by_cases hm : k ∈ l ∧ q k = true
  · rw [if_pos hm]
    exact List.count_eq_one_of_mem (hnd.filter q) (List.mem_filter.mpr ⟨hm.1, hm.2⟩)
  · rw [if_neg hm]
    refine List.count_eq_zero_of_not_mem ?_
    intro hc
    exact hm ⟨(List.mem_filter.mp hc).1, (List.mem_filter.mp hc).2⟩

/-- The keys of filtered_properties are duplicate-free whenever the input
property map has duplicate-free keys. -/
theorem filtered_properties_nodup (props : List (String × GValue)) (uname uv : String)
    (hnd : (props.map Prod.fst).Nodup) :
    ((filtered_properties props uname uv).map Prod.fst).Nodup := by
  have hbase :
      ((props.filter fun kv => decide (kv.1 ≠ "id" ∧ kv.1 ≠ "label")).map Prod.fst).Nodup := by
    rw [map_fst_filter (fun x => decide (x ≠ "id" ∧ x ≠ "label")) props]
    exact hnd.filter _
  simp only [filtered_properties]
  split
  · exact hbase
  · rename_i hmem
    rw [List.map_append]
    simp only [List.map_cons, List.map_nil]
    rw [List.nodup_append]
    refine ⟨hbase, by simp, ?_⟩
    intro a ha hb
    simp at hb
    subst hb
    exact hmem ha

/-- C7: when upsert_vertex finds an existing matching vertex (with valid
inputs and duplicate-free property keys), the built statement is an update
against that vertex's id, and its property-assignment clauses contain exactly
one clause for each entry of filtered_properties whose key is not the unique
property, not the partition key and not id — and no clause at all for those
three. -/
theorem upsert_update_statement (pk : String) (st : List Vertex)
    (label id_value uname uv : String) (props : List (String × GValue)) (v : Vertex)
    (hl : label ≠ "") (hi : id_value ≠ "") (hu : uname ≠ "")
    (hfind : find_vertex pk st label uname uv = some v) (hid : v.id ≠ "")
    (hnd : (props.map Prod.fst).Nodup) :
    (upsert_vertex pk true st label id_value uname (some uv) props).query
      = some (GremlinQuery.update v.id label
          (update_clauses (filtered_properties props uname uv) uname pk))
    ∧ ∀ k : String,
        ((update_clauses (filtered_properties props uname uv) uname pk).map Prod.fst).count k
          = if k ∈ (filtered_properties props uname uv).map Prod.fst
                ∧ k ≠ uname ∧ k ≠ pk ∧ k ≠ "id" then 1 else 0 := by
  constructor
  · unfold upsert_vertex
    rw [if_neg (by simp [hl, hi, hu])]
    simp [hfind, hid]
  · intro k
    have hfq := filtered_properties_nodup props uname uv hnd
    have h1 :
        (update_clauses (filtered_properties props uname uv) uname pk).map Prod.fst
          = ((filtered_properties props uname uv).map Prod.fst).filter
              (fun x => decide (x ≠ uname ∧ x ≠ pk ∧ x ≠ "id")) :=
      map_fst_filter (fun x => decide (x ≠ uname ∧ x ≠ pk ∧ x ≠ "id")) _
    rw [h1, count_filter_nodup _ _ hfq k]
    by_cases hc : k ≠ uname ∧ k ≠ pk ∧ k ≠ "id" <;>
      by_cases hm : k ∈ (filtered_properties props uname uv).map Prod.fst <;>
        simp [hc, hm]

/-- Witness for the C7 theorem: a store holding one matching vertex, an upsert
with a two-entry property map; the built statement updates vertex v1 and its
clause keys are exactly the key a, once. -/
theorem upsert_update_statement_witness :
    (("L" : String) ≠ "" ∧ ("v9" : String) ≠ "" ∧ ("name" : String) ≠ ""
      ∧ find_vertex "resourceType"
          [⟨"v1", "L", [("resourceType", GValue.str "L"), ("name", GValue.str "x")]⟩]
          "L" "name" "x"
          = some ⟨"v1", "L", [("resourceType", GValue.str "L"), ("name", GValue.str "x")]⟩
      ∧ (⟨"v1", "L", [("resourceType", GValue.str "L"), ("name", GValue.str "x")]⟩ : Vertex).id ≠ ""
      ∧ (([("name", GValue.str "x"), ("a", GValue.str "b")].map Prod.fst).Nodup))
    ∧ ((upsert_vertex "resourceType" true
          [⟨"v1", "L", [("resourceType", GValue.str "L"), ("name", GValue.str "x")]⟩]
          "L" "v9" "name" (some "x") [("name", GValue.str "x"), ("a", GValue.str "b")]).query
        = some (GremlinQuery.update "v1" "L"
            (update_clauses
              (filtered_properties [("name", GValue.str "x"), ("a", GValue.str "b")] "name" "x")
              "name" "resourceType"))
      ∧ ∀ k : String,
          ((update_clauses
              (filtered_properties [("name", GValue.str "x"), ("a", GValue.str "b")] "name" "x")
              "name" "resourceType").map Prod.fst).count k
            = if k ∈ (filtered_properties [("name", GValue.str "x"), ("a", GValue.str "b")]
                        "name" "x").map Prod.fst
                  ∧ k ≠ "name" ∧ k ≠ "resourceType" ∧ k ≠ "id" then 1 else 0) :=
  ⟨⟨by decide, by decide, by decide, by decide, by decide, by decide⟩,
   upsert_update_statement "resourceType"
     [⟨"v1", "L", [("resourceType", GValue.str "L"), ("name", GValue.str "x")]⟩]
     "L" "v9" "name" "x" [("name", GValue.str "x"), ("a", GValue.str "b")]
     ⟨"v1", "L", [("resourceType", GValue.str "L"), ("name", GValue.str "x")]⟩
     (by decide) (by decide) (by decide) (by decide) (by decide) (by decide)⟩

/-- Writing a key then reading it gives the written value. -/
theorem lookup_setProp_self (p : List (String × GValue)) (k : String) (w : GValue) :
    lookupProp (setProp p k w) k = some w := by
  induction p with
  | nil => simp [setProp, lookupProp]
  | cons kv t ih =>
    by_cases h : kv.1 = k
    · simp [setProp, h, lookupProp]
    · simp [setProp, h, lookupProp, ih]

/-- Writing one key leaves the others unchanged. -/
theorem lookup_setProp_ne (p : List (String × GValue)) (k k' : String) (w : GValue)
    (h : k' ≠ k) :
    lookupProp (setProp p k w) k' = lookupProp p k' := by
  induction p with
  | nil => simp [setProp, lookupProp, h, Ne.symm h]
  | cons kv t ih =>
    by_cases hk : kv.1 = k
    · subst hk
      simp [setProp, lookupProp, h, Ne.symm h]
    · by_cases hk' : kv.1 = k'
      · simp [setProp, hk, lookupProp, hk', h, Ne.symm h]
      · simp [setProp, hk, lookupProp, hk', ih, h, Ne.symm h]

/-- Applying clauses that never mention a key leaves that key unchanged. -/
theorem lookup_applyClauses_not_mem (cls : List (String × GValue)) :
    ∀ (p : List (String × GValue)) (k : String), k ∉ cls.map Prod.fst →
      lookupProp (applyClauses p cls) k = lookupProp p k := by
  induction cls with
  | nil => intro p k _; rfl
  | cons e t ih =>
    intro p k hk
    simp only [List.map_cons, List.mem_cons] at hk
    push_neg at hk
    have : applyClauses p (e :: t) = applyClauses (setProp p e.1 e.2) t := rfl
    rw [this, ih (setProp p e.1 e.2) k hk.2, lookup_setProp_ne p e.1 k e.2 hk.1]

/-- Applying clauses all of whose bindings of a key carry the same value, at
least one binding being present, makes the key read that value. -/
theorem lookup_applyClauses_const (cls : List (String × GValue)) :
    ∀ (p : List (String × GValue)) (k : String) (w : GValue),
      (∀ e ∈ cls, e.1 = k → e.2 = w) → k ∈ cls.map Prod.fst →
      lookupProp (applyClauses p cls) k = some w := by
  induction cls with
  | nil => intro p k w _ hm; simp at hm
  | cons e t ih =>
    intro p k w hall hm
    have hstep : applyClauses p (e :: t) = applyClauses (setProp p e.1 e.2) t := rfl
    by_cases hmt : k ∈ t.map Prod.fst
    · rw [hstep]
      exact ih (setProp p e.1 e.2) k w (fun x hx => hall x (List.mem_cons_of_mem e hx)) hmt
    · simp only [List.map_cons, List.mem_cons] at hm
      rcases hm with hm | hm
    
      · rw [hstep, lookup_applyClauses_not_mem t (setProp p e.1 e.2) k hmt, ← hm,
          lookup_setProp_self]
        rw [hall e (List.mem_cons_self e t) hm.symm]
      · exact absurd hm hmt

/-- A vertex returned by _find_vertex belongs to the store and satisfies the
lookup filter. -/
theorem find_vertex_some (pk : String) (st : List Vertex) (label uname uvalue : String)
    (v : Vertex) (h : find_vertex pk st label uname uvalue = some v) :
    v ∈ st ∧ vertexFound pk label uname uvalue v := by
  unfold find_vertex at h
  cases hf : st.filter (fun v => decide (vertexFound pk label uname uvalue v)) with
  | nil => rw [hf] at h; simp at h
  | cons a t =>
    rw [hf] at h
    simp only [List.head?_cons] at h
    injection h with h
    have ha : a ∈ st.filter (fun v => decide (vertexFound pk label uname uvalue v)) := by
      rw [hf]; exact List.mem_cons_self a t
    have hm := List.mem_filter.mp ha
    rw [h] at hm
    exact ⟨hm.1, of_decide_eq_true hm.2⟩

/-- _find_vertex misses exactly when no stored vertex satisfies the filter. -/
theorem find_vertex_none (pk : String) (st : List Vertex) (label uname uvalue : String)
    (h : find_vertex pk st label uname uvalue = none) :
    ∀ v ∈ st, ¬ vertexFound pk label uname uvalue v := by
  intro v hv hfound
  unfold find_vertex at h
  cases hf : st.filter (fun v => decide (vertexFound pk label uname uvalue v)) with
  | nil =>
    have : v ∈ st.filter (fun v => decide (vertexFound pk label uname uvalue v)) :=
      List.mem_filter.mpr ⟨hv, decide_eq_true hfound⟩
    rw [hf] at this
    simp at this
  | cons a t => rw [hf] at h; simp at h

/-- If some stored vertex satisfies the filter, _find_vertex returns a hit. -/
theorem find_vertex_is_some (pk : String) (st : List Vertex) (label uname uvalue : String)
    (v : Vertex) (hv : v ∈ st) (hfound : vertexFound pk label uname uvalue v) :
    ∃ w, find_vertex pk st label uname uvalue = some w := by
  cases hr : find_vertex pk st label uname uvalue with
  | some w => exact ⟨w, rfl⟩
  | none => exact absurd hfound (find_vertex_none pk st label uname uvalue hr v hv)

/-- Keys appearing in the update clauses are keys of filtered_properties other
than the unique property, the partition key and id. -/
theorem mem_update_clauses_keys (fp : List (String × GValue)) (uname pk k : String)
    (h : k ∈ (update_clauses fp uname pk).map Prod.fst) :
    k ∈ fp.map Prod.fst ∧ k ≠ uname ∧ k ≠ pk ∧ k ≠ "id" := by
  have h1 : (update_clauses fp uname pk).map Prod.fst
      = (fp.map Prod.fst).filter (fun x => decide (x ≠ uname ∧ x ≠ pk ∧ x ≠ "id")) :=
    map_fst_filter (fun x => decide (x ≠ uname ∧ x ≠ pk ∧ x ≠ "id")) fp
  rw [h1] at h
  have h2 := List.mem_filter.mp h
  exact ⟨h2.1, of_decide_eq_true h2.2⟩

/-- Keys appearing in the creation clauses are keys of filtered_properties
other than the partition key and id, and conversely. -/
theorem mem_create_clauses_keys (fp : List (String × GValue)) (pk k : String) :
    k ∈ (create_clauses fp pk).map Prod.fst
      ↔ k ∈ fp.map Prod.fst ∧ k ≠ pk ∧ k ≠ "id" := by
  have h1 : (create_clauses fp pk).map Prod.fst
      = (fp.map Prod.fst).filter (fun x => decide (x ≠ pk ∧ x ≠ "id")) :=
    map_fst_filter (fun x => decide (x ≠ pk ∧ x ≠ "id")) fp
  rw [h1]
  constructor
  · intro h
    have h2 := List.mem_filter.mp h
    exact ⟨h2.1, of_decide_eq_true h2.2⟩
  · intro h
    exact List.mem_filter.mpr ⟨h.1, decide_eq_true h.2⟩

/-- Every entry of the creation clauses is an entry of filtered_properties. -/
theorem mem_of_mem_create_clauses (fp : List (String × GValue)) (pk : String)
    (e : String × GValue) (h : e ∈ create_clauses fp pk) : e ∈ fp :=
  List.mem_of_mem_filter h

/-- When all bindings of the unique property in the input map carry the sought
value, the same holds inside filtered_properties (the forced binding carries
exactly that value). -/
theorem filtered_properties_uname_val (props : List (String × GValue)) (uname uv : String)
    (hprops : ∀ p ∈ props, p.1 = uname → p.2 = GValue.str uv) :
    ∀ e ∈ filtered_properties props uname uv, e.1 = uname → e.2 = GValue.str uv := by
  simp only [filtered_properties]
  split
  · intro e he hk
    exact hprops e (List.mem_of_mem_filter he) hk
  · intro e he hk
    rcases List.mem_append.mp he with h | h
    · exact hprops e (List.mem_of_mem_filter h) hk
    · simp only [List.mem_singleton] at h
      rw [h]

/-- filtered_properties always contains a binding for the unique property. -/
theorem filtered_properties_uname_mem (props : List (String × GValue)) (uname uv : String) :
    uname ∈ (filtered_properties props uname uv).map Prod.fst := by
  simp only [filtered_properties]
  split
  · rename_i h
    exact h
  · rw [List.map_append]
    simp

/-- The unique property of a vertex freshly created by the upsert creation
statement reads exactly the sought unique value, under the call-consistency
conditions. -/
theorem created_vertex_uname_value (pk label id_value uname uv : String)
    (props : List (String × GValue))
    (hprops : ∀ p ∈ props, p.1 = uname → p.2 = GValue.str uv)
    (hid : uname = "id" → id_value = uv)
    (hpk : uname = pk → uv = label) :
    getProp
      ⟨id_value, label,
        applyClauses [(pk, GValue.str label)]
          (create_clauses (filtered_properties props uname uv) pk)⟩ uname
      = some (GValue.str uv) := by
  by_cases h1 : uname = "id"
  · simp [getProp, h1, hid h1]
  · unfold getProp
    rw [if_neg h1]
    by_cases h2 : uname = pk
    · have hnotmem : uname ∉
          (create_clauses (filtered_properties props uname uv) pk).map Prod.fst := by
        intro hmem
        exact ((mem_create_clauses_keys _ pk uname).mp hmem).2.1 h2
      rw [lookup_applyClauses_not_mem _ _ _ hnotmem]
      rw [hpk h2]
      simp [lookupProp, h2]
    · apply lookup_applyClauses_const
      · intro e he hk
        exact filtered_properties_uname_val props uname uv hprops e
          (mem_of_mem_create_clauses _ pk e he) hk
      · exact (mem_create_clauses_keys _ pk uname).mpr
          ⟨filtered_properties_uname_mem props uname uv, h2, h1⟩

/-- Updating a vertex with clauses that never touch the unique property leaves
its unique-property reading unchanged (the id is immutable in any case). -/
theorem getProp_update_untouched (uname : String) (cls : List (String × GValue))
    (hcls : uname ∉ cls.map Prod.fst) (v : Vertex) :
    getProp { v with props := applyClauses v.props cls } uname = getProp v uname := by
  unfold getProp
  by_cases h : uname = "id"
  · simp [h]
  · simp [h, lookup_applyClauses_not_mem cls v.props uname hcls]

/-- Executing an update statement whose clauses avoid the unique property
leaves every (label, unique-value) match count unchanged. -/
theorem execQuery_update_matchCount (pk : String) (st : List Vertex) (vid pkVal : String)
    (cls : List (String × GValue)) (uname : String) (hcls : uname ∉ cls.map Prod.fst)
    (label uvalue : String) :
    matchCount (execQuery pk st (GremlinQuery.update vid pkVal cls)).1 uname label uvalue
      = matchCount st uname label uvalue := by
  unfold matchCount execQuery
  simp only [List.countP_map]
  apply List.countP_congr
  intro v _
  by_cases hs : (v.id = vid ∧ getProp v pk = some (GValue.str pkVal))
  · simp only [Function.comp_apply, if_pos hs]
    have h1 := getProp_update_untouched uname cls hcls v
    simp [uniqMatch, h1]
  · simp only [Function.comp_apply, if_neg hs]

/-- Executing such an update statement also preserves partition-key conformance
when the clauses avoid the partition key, and non-emptiness of ids always. -/
theorem execQuery_update_conform (pk : String) (st : List Vertex) (vid pkVal : String)
    (cls : List (String × GValue)) (hcls : pk ∉ cls.map Prod.fst)
    (hpk : pkConform st pk) (hids : idsNonempty st) :
    pkConform (execQuery pk st (GremlinQuery.update vid pkVal cls)).1 pk
    ∧ idsNonempty (execQuery pk st (GremlinQuery.update vid pkVal cls)).1 := by
  constructor
  · intro w hw
    unfold execQuery at hw
    simp only [List.mem_map] at hw
    obtain ⟨v, hv, hvw⟩ := hw
    by_cases hs : (v.id = vid ∧ getProp v pk = some (GValue.str pkVal))
    · rw [if_pos hs] at hvw
      rw [← hvw]
      have := getProp_update_untouched pk cls hcls v
      simpa [this] using hpk v hv
    · rw [if_neg hs] at hvw
      rw [← hvw]
      exact hpk v hv
  · intro w hw
    unfold execQuery at hw
    simp only [List.mem_map] at hw
    obtain ⟨v, hv, hvw⟩ := hw
    by_cases hs : (v.id = vid ∧ getProp v pk = some (GValue.str pkVal))
    · rw [if_pos hs] at hvw
      rw [← hvw]
      exact hids v hv
    · rw [if_neg hs] at hvw
      rw [← hvw]
      exact hids v hv

/-- Appending a vertex adds its own match contribution to each count. -/
theorem matchCount_append_one (st : List Vertex) (nv : Vertex) (uname label uvalue : String) :
    matchCount (st ++ [nv]) uname label uvalue
      = matchCount st uname label uvalue
        + (if uniqMatch uname label uvalue nv then 1 else 0) := by
  unfold matchCount
  rw [List.countP_append]
  simp [List.countP_cons]

/-- Execution paths of upsert_vertex: either the store is untouched (failed
validation, disconnected client, or a found vertex with an empty id), or a
connected valid call hit an existing vertex and executed the update statement,
or a connected valid call missed and executed the creation statement. -/
theorem upsert_cases (pk : String) (connected : Bool) (st : List Vertex)
    (label id_value uname : String) (uvalue : Option String)
    (props : List (String × GValue)) :
    (((label = "" ∨ id_value = "" ∨ uname = "" ∨ uvalue = none) ∨ connected = false
        ∨ ∃ v, find_vertex pk st label uname (uvalue.getD "") = some v ∧ v.id = "")
      ∧ (upsert_vertex pk connected st label id_value uname uvalue props).store = st)
    ∨ (∃ v, connected = true
        ∧ ¬(label = "" ∨ id_value = "" ∨ uname = "" ∨ uvalue = none)
        ∧ find_vertex pk st label uname (uvalue.getD "") = some v ∧ v.id ≠ ""
        ∧ upsert_vertex pk connected st label id_value uname uvalue props
            = ⟨(execQuery pk st (GremlinQuery.update v.id label
                  (update_clauses (filtered_properties props uname (uvalue.getD ""))
                    uname pk))).1,
               (execQuery pk st (GremlinQuery.update v.id label
                  (update_clauses (filtered_properties props uname (uvalue.getD ""))
                    uname pk))).2,
               some (GremlinQuery.update v.id label
                  (update_clauses (filtered_properties props uname (uvalue.getD ""))
                    uname pk)), 2⟩)
    ∨ (connected = true
        ∧ ¬(label = "" ∨ id_value = "" ∨ uname = "" ∨ uvalue = none)
        ∧ find_vertex pk st label uname (uvalue.getD "") = none
        ∧ upsert_vertex pk connected st label id_value uname uvalue props
            = ⟨(execQuery pk st (GremlinQuery.create label id_value pk
                  (create_clauses (filtered_properties props uname (uvalue.getD "")) pk))).1,
               (execQuery pk st (GremlinQuery.create label id_value pk
                  (create_clauses (filtered_properties props uname (uvalue.getD "")) pk))).2,
               some (GremlinQuery.create label id_value pk
                  (create_clauses (filtered_properties props uname (uvalue.getD "")) pk)),
               2⟩) := by
  by_cases hval : label = "" ∨ id_value = "" ∨ uname = "" ∨ uvalue = none
  · left
    refine ⟨Or.inl hval, ?_⟩
    unfold upsert_vertex
    rw [if_pos hval]
  · cases connected with
    | false =>
      left
      refine ⟨Or.inr (Or.inl rfl), ?_⟩
      unfold upsert_vertex
      rw [if_neg hval]
      simp
    | true =>
      cases hfind : find_vertex pk st label uname (uvalue.getD "") with
      | some v =>
        by_cases hid : v.id = ""
        · left
          refine ⟨Or.inr (Or.inr ⟨v, rfl, hid⟩), ?_⟩
          unfold upsert_vertex
          rw [if_neg hval]
          simp [hfind, hid]
        · right; left
          refine ⟨v, rfl, hval, rfl, hid, ?_⟩
          unfold upsert_vertex
          rw [if_neg hval]
          simp [hfind, hid]
      | none =>
        right; right
        refine ⟨rfl, hval, rfl, ?_⟩
        unfold upsert_vertex
        rw [if_neg hval]
        simp [hfind]

/-- One upsert_vertex call preserves partition-key conformance, the uniqueness
invariant and non-emptiness of ids, provided the partition-key field is not
id and the call is consistent (callOK). -/
theorem upsert_step_preserves (pk uname : String) (hpkid : pk ≠ "id") (connected : Bool)
    (st : List Vertex) (c : UpsertCall)
    (hpk : pkConform st pk) (hinv : uniqInv st uname) (hids : idsNonempty st)
    (hc : callOK pk uname c) :
    pkConform (upsert_vertex pk connected st c.label c.id_value uname c.uvalue c.props).store pk
    ∧ uniqInv (upsert_vertex pk connected st c.label c.id_value uname c.uvalue c.props).store
        uname
    ∧ idsNonempty
        (upsert_vertex pk connected st c.label c.id_value uname c.uvalue c.props).store := by
  rcases upsert_cases pk connected st c.label c.id_value uname c.uvalue c.props with
    ⟨_, h⟩ | ⟨v, _, _, _, _, heq⟩ | ⟨_, hval, hfind, heq⟩
  · rw [h]
    exact ⟨hpk, hinv, hids⟩
  · have hst : (upsert_vertex pk connected st c.label c.id_value uname c.uvalue c.props).store
        = (execQuery pk st (GremlinQuery.update v.id c.label
            (update_clauses (filtered_properties c.props uname (c.uvalue.getD ""))
              uname pk))).1 := by
      rw [heq]
    rw [hst]
    have hclsu : uname ∉
        ((update_clauses (filtered_properties c.props uname (c.uvalue.getD "")) uname pk).map
          Prod.fst) :=
      fun hm => (mem_update_clauses_keys _ _ _ _ hm).2.1 rfl
    have hclsp : pk ∉
        ((update_clauses (filtered_properties c.props uname (c.uvalue.getD "")) uname pk).map
          Prod.fst) :=
      fun hm => (mem_update_clauses_keys _ _ _ _ hm).2.2.1 rfl
    have hcf := execQuery_update_conform pk st v.id c.label _ hclsp hpk hids
    refine ⟨hcf.1, ?_, hcf.2⟩
    intro l u
    rw [execQuery_update_matchCount pk st v.id c.label _ uname hclsu l u]
    exact hinv l u
  · push_neg at hval
    obtain ⟨hl, hi, hu, hv⟩ := hval
    obtain ⟨uv, huv⟩ := Option.ne_none_iff_exists'.mp hv
    obtain ⟨hprops, hidc, hpkc⟩ := hc uv huv
    have hgd : c.uvalue.getD "" = uv := by rw [huv]; rfl
    rw [hgd] at hfind heq
    have hst : (upsert_vertex pk connected st c.label c.id_value uname c.uvalue c.props).store
        = st ++ [⟨c.id_value, c.label,
            applyClauses [(pk, GValue.str c.label)]
              (create_clauses (filtered_properties c.props uname uv) pk)⟩] := by
      rw [heq]
      rfl
    rw [hst]
    have hnvu : getProp
        ⟨c.id_value, c.label,
          applyClauses [(pk, GValue.str c.label)]
            (create_clauses (filtered_properties c.props uname uv) pk)⟩ uname
        = some (GValue.str uv) :=
      created_vertex_uname_value pk c.label c.id_value uname uv c.props hprops hidc hpkc
    have hnvpk : getProp
        ⟨c.id_value, c.label,
          applyClauses [(pk, GValue.str c.label)]
            (create_clauses (filtered_properties c.props uname uv) pk)⟩ pk
        = some (GValue.str c.label) := by
      unfold getProp
      rw [if_neg hpkid]
      rw [lookup_applyClauses_not_mem _ _ _
        (fun hm => ((mem_create_clauses_keys _ _ _).mp hm).2.1 rfl)]
      simp [lookupProp]
    refine ⟨?_, ?_, ?_⟩
    · intro w hw
      rcases List.mem_append.mp hw with h | h
      · exact hpk w h
      · simp only [List.mem_singleton] at h
        rw [h]
        exact hnvpk
    · intro l u
      rw [matchCount_append_one]
      by_cases hm : uniqMatch uname l u
          ⟨c.id_value, c.label,
            applyClauses [(pk, GValue.str c.label)]
              (create_clauses (filtered_properties c.props uname uv) pk)⟩
      · have hml := hm.1
        have hmu := hm.2
        have hlc : l = c.label := hml.symm
        have huvu : u = uv := by
          rw [hnvu] at hmu
          injection hmu with hmu
          injection hmu with hmu
          exact hmu.symm
        have hzero : matchCount st uname l u = 0 := by
          rw [hlc, huvu]
          unfold matchCount
          rw [List.countP_eq_zero]
          intro w hw hww
          have hwm := of_decide_eq_true hww
          have hfound : vertexFound pk c.label uname uv w := by
            refine ⟨hwm.1, ?_, hwm.2⟩
            rw [hpk w hw, hwm.1]
          obtain ⟨z, hz⟩ := find_vertex_is_some pk st c.label uname uv w hw hfound
          rw [hz] at hfind
          exact Option.noConfusion hfind
        rw [hzero, if_pos hm]
      · rw [if_neg hm]
        have := hinv l u
        omega
    · intro w hw
      rcases List.mem_append.mp hw with h | h
      · exact hids w h
      · simp only [List.mem_singleton] at h
        rw [h]
        exact hi

/-- When the lookup misses in a partition-key-conformant store, no vertex at
all matches the (label, unique value) pair. -/
theorem matchCount_zero_of_find_none (pk uname : String) (st : List Vertex)
    (label uv : String) (hpk : pkConform st pk)
    (hfind : find_vertex pk st label uname uv = none) :
    matchCount st uname label uv = 0 := by
  unfold matchCount
  rw [List.countP_eq_zero]
  intro w hw hww
  have hwm := of_decide_eq_true hww
  have hfound : vertexFound pk label uname uv w :=
    ⟨hwm.1, by rw [hpk w hw, hwm.1], hwm.2⟩
  obtain ⟨z, hz⟩ := find_vertex_is_some pk st label uname uv w hw hfound
  rw [hz] at hfind
  exact Option.noConfusion hfind

/-- When the lookup hits in a store satisfying the uniqueness invariant,
exactly one vertex matches the (label, unique value) pair. -/
theorem matchCount_one_of_found (pk uname : String) (st : List Vertex)
    (label uv : String) (v : Vertex) (hinv : uniqInv st uname)
    (hfind : find_vertex pk st label uname uv = some v) :
    matchCount st uname label uv = 1 := by
  obtain ⟨hmem, hfound⟩ := find_vertex_some pk st label uname uv v hfind
  have h1 : 0 < matchCount st uname label uv := by
    unfold matchCount
    rw [List.countP_pos_iff]
    exact ⟨v, hmem, decide_eq_true ⟨hfound.1, hfound.2.2⟩⟩
  have h2 := hinv label uv
  omega

/-- Running a sequence of consistent upsert calls preserves partition-key
conformance, the uniqueness invariant and non-emptiness of ids. -/
theorem runUpserts_preserves (pk uname : String) (hpkid : pk ≠ "id") (connected : Bool) :
    ∀ (calls : List UpsertCall) (st : List Vertex),
      pkConform st pk → uniqInv st uname → idsNonempty st →
      (∀ c ∈ calls, callOK pk uname c) →
      pkConform (runUpserts pk uname connected st calls) pk
      ∧ uniqInv (runUpserts pk uname connected st calls) uname
      ∧ idsNonempty (runUpserts pk uname connected st calls) := by
  intro calls
  induction calls with
  | nil =>
    intro st h1 h2 h3 _
    exact ⟨h1, h2, h3⟩
  | cons c cs ih =>
    intro st h1 h2 h3 hall
    have hstep := upsert_step_preserves pk uname hpkid connected st c h1 h2 h3
      (hall c (List.mem_cons_self c cs))
    have hrec := ih _ hstep.1 hstep.2.1 hstep.2.2
      (fun x hx => hall x (List.mem_cons_of_mem c hx))
    simpa [runUpserts, List.foldl_cons] using hrec

/-- After one valid connected consistent upsert of (label, unique value),
exactly one vertex matches that pair. -/
theorem upsert_first_call_count (pk uname : String) (hpkid : pk ≠ "id")
    (st : List Vertex) (c : UpsertCall) (uv : String)
    (hpk : pkConform st pk) (hinv : uniqInv st uname) (hids : idsNonempty st)
    (hc : callOK pk uname c) (hval : validCall uname c) (huv : c.uvalue = some uv) :
    matchCount (upsert_vertex pk true st c.label c.id_value uname c.uvalue c.props).store
      uname c.label uv = 1 := by
  obtain ⟨hl, hi, hu, hvn⟩ := hval
  have hgd : c.uvalue.getD "" = uv := by rw [huv]; rfl
  obtain ⟨hprops, hidc, hpkc⟩ := hc uv huv
  rcases upsert_cases pk true st c.label c.id_value uname c.uvalue c.props with
    ⟨hreason, _⟩ | ⟨v, _, _, hfind, hid, heq⟩ | ⟨_, _, hfind, heq⟩
  · rcases hreason with hbad | hbad | ⟨v, hfv, hvid⟩
    · rcases hbad with h | h | h | h
      · exact absurd h hl
      · exact absurd h hi
      · exact absurd h hu
      · exact absurd h hvn
    · exact Bool.noConfusion hbad
    · have := (find_vertex_some pk st c.label uname (c.uvalue.getD "") v hfv).1
      exact absurd hvid (hids v this)
  · rw [hgd] at hfind heq
    have hst : (upsert_vertex pk true st c.label c.id_value uname c.uvalue c.props).store
        = (execQuery pk st (GremlinQuery.update v.id c.label
            (update_clauses (filtered_properties c.props uname uv) uname pk))).1 := by
      rw [heq]
    rw [hst]
    have hclsu : uname ∉
        ((update_clauses (filtered_properties c.props uname uv) uname pk).map Prod.fst) :=
      fun hm => (mem_update_clauses_keys _ _ _ _ hm).2.1 rfl
    rw [execQuery_update_matchCount pk st v.id c.label _ uname hclsu c.label uv]
    exact matchCount_one_of_found pk uname st c.label uv v hinv hfind
  · rw [hgd] at hfind heq
    have hst : (upsert_vertex pk true st c.label c.id_value uname c.uvalue c.props).store
        = st ++ [⟨c.id_value, c.label,
            applyClauses [(pk, GValue.str c.label)]
              (create_clauses (filtered_properties c.props uname uv) pk)⟩] := by
      rw [heq]
      rfl
    rw [hst, matchCount_append_one]
    rw [matchCount_zero_of_find_none pk uname st c.label uv hpk hfind]
    rw [if_pos ⟨rfl, created_vertex_uname_value pk c.label c.id_value uname uv c.props
      hprops hidc hpkc⟩]

/-- A valid connected upsert against a store already containing exactly one
match for its (label, unique value) pair builds an update statement (not a
creation) and leaves exactly one match. -/
theorem upsert_second_call_updates (pk uname : String)
    (st1 : List Vertex) (c : UpsertCall) (uv : String)
    (hpk : pkConform st1 pk) (hinv : uniqInv st1 uname) (hids : idsNonempty st1)
    (hcount : matchCount st1 uname c.label uv = 1)
    (hval : validCall uname c) (huv : c.uvalue = some uv) :
    matchCount (upsert_vertex pk true st1 c.label c.id_value uname c.uvalue c.props).store
      uname c.label uv = 1
    ∧ ∃ vid cls,
        (upsert_vertex pk true st1 c.label c.id_value uname c.uvalue c.props).query
          = some (GremlinQuery.update vid c.label cls) := by
  obtain ⟨hl, hi, hu, hvn⟩ := hval
  have hgd : c.uvalue.getD "" = uv := by rw [huv]; rfl
  have hex : ∃ w ∈ st1, uniqMatch uname c.label uv w := by
    have h1 : 0 < matchCount st1 uname c.label uv := by omega
    unfold matchCount at h1
    rw [List.countP_pos_iff] at h1
    obtain ⟨w, hw, hww⟩ := h1
    exact ⟨w, hw, of_decide_eq_true hww⟩
  obtain ⟨w, hwmem, hwmatch⟩ := hex
  have hwfound : vertexFound pk c.label uname uv w :=
    ⟨hwmatch.1, by rw [hpk w hwmem, hwmatch.1], hwmatch.2⟩
  obtain ⟨z, hz⟩ := find_vertex_is_some pk st1 c.label uname uv w hwmem hwfound
  rcases upsert_cases pk true st1 c.label c.id_value uname c.uvalue c.props with
    ⟨hreason, _⟩ | ⟨v, _, _, hfind, hid, heq⟩ | ⟨_, _, hfind, heq⟩
  · rcases hreason with hbad | hbad | ⟨v, hfv, hvid⟩
    · rcases hbad with h | h | h | h
      · exact absurd h hl
      · exact absurd h hi
      · exact absurd h hu
      · exact absurd h hvn
    · exact Bool.noConfusion hbad
    · have := (find_vertex_some pk st1 c.label uname (c.uvalue.getD "") v hfv).1
      exact absurd hvid (hids v this)
  · rw [hgd] at hfind heq
    have hclsu : uname ∉
        ((update_clauses (filtered_properties c.props uname uv) uname pk).map Prod.fst) :=
      fun hm => (mem_update_clauses_keys _ _ _ _ hm).2.1 rfl
    constructor
    · have hst : (upsert_vertex pk true st1 c.label c.id_value uname c.uvalue c.props).store
          = (execQuery pk st1 (GremlinQuery.update v.id c.label
              (update_clauses (filtered_properties c.props uname uv) uname pk))).1 := by
        rw [heq]
      rw [hst]
      rw [execQuery_update_matchCount pk st1 v.id c.label _ uname hclsu c.label uv]
      exact hcount
    · refine ⟨v.id, update_clauses (filtered_properties c.props uname uv) uname pk, ?_⟩
      rw [heq]
  · rw [hgd] at hfind
    rw [hz] at hfind
    exact Option.noConfusion hfind

/-- C1 (amended): starting from a store in which every vertex has its
partition-key property equal to its label, every id is non-empty and the
uniqueness invariant holds, any sequence of sequential upsert_vertex calls
sharing one unique property name preserves all three properties — provided the
partition-key field is not id and each call is consistent: its property map
never binds the unique property to anything other than its
unique_property_value, its id_value equals the unique value when the unique
property is id, and its unique value equals its label when the unique property
is the partition key.  Moreover, upserting the same (label, unique-value) pair
twice sequentially under these conditions yields exactly one matching vertex,
the second call building an update statement rather than creating a duplicate.
Without the consistency condition the invariant can be violated (see the
counterexample: a property map binding the unique property to a different
value makes the created vertex invisible to the next lookup). -/
theorem upsert_uniqueness_invariant_amended (pk uname : String) (hpkid : pk ≠ "id")
    (connected : Bool) (st : List Vertex) (calls : List UpsertCall)
    (hpk : pkConform st pk) (hinv : uniqInv st uname) (hids : idsNonempty st)
    (hall : ∀ c ∈ calls, callOK pk uname c) :
    (pkConform (runUpserts pk uname connected st calls) pk
      ∧ uniqInv (runUpserts pk uname connected st calls) uname
      ∧ idsNonempty (runUpserts pk uname connected st calls))
    ∧ ∀ (c c' : UpsertCall) (uv : String),
        callOK pk uname c → callOK pk uname c' →
        validCall uname c → validCall uname c' →
        c.uvalue = some uv → c'.uvalue = some uv → c'.label = c.label →
        matchCount
            (upsert_vertex pk true
              (upsert_vertex pk true st c.label c.id_value uname c.uvalue c.props).store
              c'.label c'.id_value uname c'.uvalue c'.props).store uname c.label uv = 1
        ∧ ∃ vid cls,
            (upsert_vertex pk true
              (upsert_vertex pk true st c.label c.id_value uname c.uvalue c.props).store
              c'.label c'.id_value uname c'.uvalue c'.props).query
              = some (GremlinQuery.update vid c.label cls) := by
  constructor
  · exact runUpserts_preserves pk uname hpkid connected calls st hpk hinv hids hall
  · intro c c' uv hc hc' hval hval' huv huv' hlab
    have hstep := upsert_step_preserves pk uname hpkid true st c hpk hinv hids hc
    have hcount1 := upsert_first_call_count pk uname hpkid st c uv hpk hinv hids hc hval huv
    have hcount1' : matchCount
        (upsert_vertex pk true st c.label c.id_value uname c.uvalue c.props).store
        uname c'.label uv = 1 := by
      rw [hlab]
      exact hcount1
    have hsecond := upsert_second_call_updates pk uname
      (upsert_vertex pk true st c.label c.id_value uname c.uvalue c.props).store
      c' uv hstep.1 hstep.2.1 hstep.2.2 hcount1' hval' huv'
    rw [hlab] at hsecond
    rw [hlab]
    exact hsecond

/-- C1 counterexample: the claim fails as stated.  Starting from the empty
store, which satisfies the uniqueness invariant, two sequential upsert_vertex
calls for the same (label L, unique property name, unique value v) whose
property maps bind name to the different value w leave two vertices both
carrying (L, name, w): each call's lookup for (L, name, v) misses, so the
second call creates a duplicate instead of updating. -/
theorem upsert_uniqueness_invariant_counterexample :
    uniqInv [] "name"
    ∧ matchCount
        (upsert_vertex "resourceType" true
          (upsert_vertex "resourceType" true [] "L" "id1" "name" (some "v")
            [("name", GValue.str "w")]).store
          "L" "id2" "name" (some "v") [("name", GValue.str "w")]).store
        "name" "L" "w" = 2
    ∧ ¬ uniqInv
        (upsert_vertex "resourceType" true
          (upsert_vertex "resourceType" true [] "L" "id1" "name" (some "v")
            [("name", GValue.str "w")]).store
          "L" "id2" "name" (some "v") [("name", GValue.str "w")]).store "name" := by
  refine ⟨?_, by decide, ?_⟩
  · intro l u
    simp [matchCount]
  · intro h
    have h2 := h "L" "w"
    have h3 : matchCount
        (upsert_vertex "resourceType" true
          (upsert_vertex "resourceType" true [] "L" "id1" "name" (some "v")
            [("name", GValue.str "w")]).store
          "L" "id2" "name" (some "v") [("name", GValue.str "w")]).store
        "name" "L" "w" = 2 := by decide
    omega

/-- Witness for the C1 theorem: the empty store and a single consistent
domain-style upsert call (unique property id, id_value equal to the unique
value), as issued by the orchestrator. -/
theorem upsert_uniqueness_invariant_amended_witness :
    (("resourceType" : String) ≠ "id"
      ∧ pkConform [] "resourceType"
      ∧ uniqInv [] "id"
      ∧ idsNonempty []
      ∧ (∀ c ∈ [(⟨"Domain", "d1", some "d1",
            [("id", GValue.str "d1"), ("name", GValue.str "n")]⟩ : UpsertCall)],
          callOK "resourceType" "id" c))
    ∧ ((pkConform
          (runUpserts "resourceType" "id" true []
            [⟨"Domain", "d1", some "d1",
              [("id", GValue.str "d1"), ("name", GValue.str "n")]⟩]) "resourceType"
        ∧ uniqInv
            (runUpserts "resourceType" "id" true []
              [⟨"Domain", "d1", some "d1",
                [("id", GValue.str "d1"), ("name", GValue.str "n")]⟩]) "id"
        ∧ idsNonempty
            (runUpserts "resourceType" "id" true []
              [⟨"Domain", "d1", some "d1",
                [("id", GValue.str "d1"), ("name", GValue.str "n")]⟩]))
      ∧ ∀ (c c' : UpsertCall) (uv : String),
          callOK "resourceType" "id" c → callOK "resourceType" "id" c' →
          validCall "id" c → validCall "id" c' →
          c.uvalue = some uv → c'.uvalue = some uv → c'.label = c.label →
          matchCount
              (upsert_vertex "resourceType" true
                (upsert_vertex "resourceType" true [] c.label c.id_value "id" c.uvalue
                  c.props).store
                c'.label c'.id_value "id" c'.uvalue c'.props).store "id" c.label uv = 1
          ∧ ∃ vid cls,
              (upsert_vertex "resourceType" true
                (upsert_vertex "resourceType" true [] c.label c.id_value "id" c.uvalue
                  c.props).store
                c'.label c'.id_value "id" c'.uvalue c'.props).query
                = some (GremlinQuery.update vid c.label cls)) :=
  ⟨⟨by decide,
    fun v hv => absurd hv (List.not_mem_nil v),
    fun l u => Nat.zero_le 1,
    fun v hv => absurd hv (List.not_mem_nil v),
    by
      intro c hc uv huv
      rw [List.mem_singleton] at hc
      subst hc
      injection huv with h
      subst h
      exact ⟨by decide, by decide, by decide⟩⟩,
   upsert_uniqueness_invariant_amended "resourceType" "id" (by decide) true []
     [⟨"Domain", "d1", some "d1", [("id", GValue.str "d1"), ("name", GValue.str "n")]⟩]
     (fun v hv => absurd hv (List.not_mem_nil v))
     (fun l u => Nat.zero_le 1)
     (fun v hv => absurd hv (List.not_mem_nil v))
     (by
       intro c hc uv huv
       rw [List.mem_singleton] at hc
       subst hc
       injection huv with h
       subst h
       exact ⟨by decide, by decide, by decide⟩)⟩

/-- Unfolding batches at zero. -/
theorem batches_zero (m : Nat) : batches m 0 = 0 := by
  rw [batches]
  simp

/-- Unfolding batches at a positive count. -/
theorem batches_pos_eq (m K : Nat) (h : K ≠ 0) : batches m K = 1 + batches m (K - (m+1)) := by
  rw [batches]
  simp [h]

/-- Covering a non-empty range needs at least one batch. -/
theorem batches_ge_one (m K : Nat) (h : K ≠ 0) : 1 ≤ batches m K := by
  rw [batches_pos_eq m K h]
  omega

/-- Run of the assets pagination loop against a well-behaved chunked server,
from the state reached after i successful pages: it retrieves every record and
issues one request per remaining batch. -/
theorem assetsLoop_chunks {α : Type} (records : List α) (L : Nat) (hL : 0 < L) :
    ∀ (fuel i : Nat) (reqs : List (Nat × Nat)),
      i * L < records.length →
      batches (L-1) (records.length - i * L) ≤ fuel →
      (assetsLoop (chunkOracle records L) L fuel i (i * L) (records.take (i * L)) reqs).1
          = records
      ∧ (assetsLoop (chunkOracle records L) L fuel i (i * L) (records.take (i * L)) reqs).2.length
          = reqs.length + batches (L-1) (records.length - i * L) := by
  intro fuel
  induction fuel with
  | zero =>
    intro i reqs hlt hfuel
    have h1 := batches_ge_one (L-1) (records.length - i*L) (by omega)
    omega
  | succ fuel ih =>
    intro i reqs hlt hfuel
    have hLsub : L - 1 + 1 = L := by omega
    have hpage : ((records.drop (i*L)).take L).length = min L (records.length - i*L) := by
      simp
    have hacc : records.take (i*L) ++ (records.drop (i*L)).take L
        = records.take (i*L + L) := (List.take_add records (i*L) L).symm
    simp only [assetsLoop, chunkOracle]
    rw [hacc]
    by_cases hend : records.length ≤ i*L + L
    · rw [if_pos (by simp [List.length_take]; omega)]
      refine ⟨List.take_of_length_le (by omega), ?_⟩
      have hb : batches (L-1) (records.length - i*L) = 1 := by
        rw [batches_pos_eq _ _ (by omega), hLsub]
        have hz : records.length - i*L - L = 0 := by omega
        rw [hz, batches_zero]
      rw [hb]
      simp
    · push_neg at hend
      rw [if_neg (by simp [List.length_take]; omega)]
      have hofs : i*L + ((records.drop (i*L)).take L).length = (i+1) * L := by
        rw [hpage, Nat.min_eq_left (by omega), Nat.succ_mul]
      have hacc2 : i*L + L = (i+1) * L := (Nat.succ_mul i L).symm
      rw [hofs, hacc2]
      have hlt2 : (i+1) * L < records.length := by
        rw [← hacc2]
        omega
      have hbstep : batches (L-1) (records.length - i*L)
          = 1 + batches (L-1) (records.length - (i+1)*L) := by
        rw [batches_pos_eq _ _ (by omega), hLsub, ← hacc2]
        have : records.length - i*L - L = records.length - (i*L + L) := by omega
        rw [this]
      have hrec := ih (i+1) (reqs ++ [(i*L, L)]) hlt2 (by omega)
      refine ⟨hrec.1, ?_⟩
      rw [hrec.2]
      simp only [List.length_append, List.length_singleton]
      omega

/-- A finished relLoop state (everything collected) returns immediately. -/
theorem relLoop_done {α : Type} (resp : Nat → Option (List α × Nat)) (L : Nat)
    (fuel i offset total : Nat) (acc : List α) (reqs : List (List (String × Nat)))
    (h : total ≤ acc.length) :
    relLoop resp L fuel i offset total acc reqs = (acc, reqs) := by
  cases fuel with
  | zero => rfl
  | succ fuel =>
    simp only [relLoop]
    rw [if_neg (by omega)]

/-- Run of the relations pagination loop against a well-behaved chunked
server, from the state reached after i successful pages (total already
captured): it retrieves every record and issues one parameterless request per
remaining batch. -/
theorem relLoop_chunks {α : Type} (records : List α) (L : Nat) (hL : 0 < L) :
    ∀ (fuel i : Nat) (reqs : List (List (String × Nat))),
      i * L ≤ records.length →
      batches (L-1) (records.length - i * L) ≤ fuel →
      (relLoop (chunkOracle records L) L fuel i (i * L) records.length
          (records.take (i * L)) reqs).1 = records
      ∧ (relLoop (chunkOracle records L) L fuel i (i * L) records.length
          (records.take (i * L)) reqs).2.length
          = reqs.length + batches (L-1) (records.length - i * L) := by
  intro fuel
  induction fuel with
  | zero =>
    intro i reqs hle hfuel
    by_cases hdone : i * L = records.length
    · rw [hdone, Nat.sub_self, batches_zero]
      simp [relLoop, List.take_of_length_le (le_refl records.length)]
    · have h1 := batches_ge_one (L-1) (records.length - i*L) (by omega)
      omega
  | succ fuel ih =>
    intro i reqs hle hfuel
    have hLsub : L - 1 + 1 = L := by omega
    by_cases hdone : i * L = records.length
    · have hfin : relLoop (chunkOracle records L) L (fuel+1) i (i*L) records.length
          (records.take (i*L)) reqs = (records.take (i*L), reqs) :=
        relLoop_done _ _ _ _ _ _ _ _ (by simp [List.length_take]; omega)
      rw [hfin, hdone, Nat.sub_self, batches_zero]
      simp [List.take_of_length_le (le_refl records.length)]
    · have hlt : i * L < records.length := by omega
      have hpage : ((records.drop (i*L)).take L).length = min L (records.length - i*L) := by
        simp
      have hacc : records.take (i*L) ++ (records.drop (i*L)).take L
          = records.take (i*L + L) := (List.take_add records (i*L) L).symm
      simp only [relLoop, chunkOracle]
      rw [if_pos (by simp [List.length_take]; omega)]
      rw [ite_self, hacc]
      have hacc2 : i*L + L = (i+1) * L := (Nat.succ_mul i L).symm
      by_cases hend : records.length ≤ i*L + L
      · have hofs : i*L + ((records.drop (i*L)).take L).length = records.length := by
          rw [hpage, Nat.min_eq_right (by omega)]
          omega
        rw [hofs]
        have htk : records.take (i*L + L) = records := List.take_of_length_le (by omega)
        rw [htk]
        have hfin := relLoop_done (chunkOracle records L) L fuel (i+1) records.length
          records.length records (reqs ++ [[]]) (le_refl records.length)
        rw [hfin]
        have hb : batches (L-1) (records.length - i*L) = 1 := by
          rw [batches_pos_eq _ _ (by omega), hLsub]
          have hz : records.length - i*L - L = 0 := by omega
          rw [hz, batches_zero]
        rw [hb]
        simp
      · push_neg at hend
        have hofs : i*L + ((records.drop (i*L)).take L).length = (i+1) * L := by
          rw [hpage, Nat.min_eq_left (by omega), Nat.succ_mul]
        rw [hofs, hacc2]
        have hle2 : (i+1) * L ≤ records.length := by
          rw [← hacc2]
          omega
        have hbstep : batches (L-1) (records.length - i*L)
            = 1 + batches (L-1) (records.length - (i+1)*L) := by
          rw [batches_pos_eq _ _ (by omega), hLsub, ← hacc2]
          have : records.length - i*L - L = records.length - (i*L + L) := by omega
          rw [this]
        have hrec := ih (i+1) (reqs ++ [[]]) hle2 (by omega)
        refine ⟨hrec.1, ?_⟩
        rw [hrec.2]
        simp only [List.length_append, List.length_singleton]
        omega

/-- C3: against a well-behaved paginated server whose responses are the
successive chunks of a fixed record list and whose reported total exceeds the
page size, both fetchers issue exactly ceil(total/limit) requests and return
the concatenation of the pages — all total records, in arrival order.  The
assets fetcher pages by 100, the relations fetcher by 1000. -/
theorem pagination_complete_fetch {α : Type} (r1 r2 : List α) (ps : List (String × Nat))
    (h1 : 100 < r1.length) (h2 : 1000 < r2.length) :
    (get_all_collibra_assets_basic_auth (chunkOracle r1 100) r1.length).1 = r1
    ∧ (get_all_collibra_assets_basic_auth (chunkOracle r1 100) r1.length).2.length
        = (r1.length + 99) / 100
    ∧ (get_paginated_data ps (chunkOracle r2 1000) r2.length).1 = r2
    ∧ (get_paginated_data ps (chunkOracle r2 1000) r2.length).2.length
        = (r2.length + 999) / 1000 := by
  have ha := assetsLoop_chunks r1 100 (by omega) r1.length 0 []
    (by omega)
    (by rw [batches_eq]; omega)
  simp only [Nat.zero_mul, List.take_zero, Nat.sub_zero] at ha
  rw [batches_eq] at ha
  refine ⟨?_, ?_, ?_, ?_⟩
  · exact ha.1
  · rw [get_all_collibra_assets_basic_auth, ha.2]
    simp only [List.length_nil]
    omega
  · obtain ⟨f, hf⟩ : ∃ f, r2.length = f + 1 := ⟨r2.length - 1, by omega⟩
    have hrw : get_paginated_data ps (chunkOracle r2 1000) r2.length
        = relLoop (chunkOracle r2 1000) 1000 f 1 (1*1000) r2.length
            (r2.take (1*1000)) [[]] := by
      rw [get_paginated_data, hf]
      simp [relLoop, chunkOracle, Nat.min_eq_left (by omega : 1000 ≤ r2.length)]
      rw [hf]
    have hb := relLoop_chunks r2 1000 (by omega) f 1 [[]]
      (by omega)
      (by rw [batches_eq]; omega)
    rw [hrw]
    exact hb.1
  · obtain ⟨f, hf⟩ : ∃ f, r2.length = f + 1 := ⟨r2.length - 1, by omega⟩
    have hrw : get_paginated_data ps (chunkOracle r2 1000) r2.length
        = relLoop (chunkOracle r2 1000) 1000 f 1 (1*1000) r2.length
            (r2.take (1*1000)) [[]] := by
      rw [get_paginated_data, hf]
      simp [relLoop, chunkOracle, Nat.min_eq_left (by omega : 1000 ≤ r2.length)]
      rw [hf]
    have hb := relLoop_chunks r2 1000 (by omega) f 1 [[]]
      (by omega)
      (by rw [batches_eq]; omega)
    rw [hrw, hb.2, batches_eq]
    simp only [List.length_singleton]
    omega

/-- Witness for the C3 theorem: 101 records paged by 100 (two requests) and
1001 records paged by 1000 (two requests). -/
theorem pagination_complete_fetch_witness :
    (100 < (List.range 101).length ∧ 1000 < (List.range 1001).length)
    ∧ ((get_all_collibra_assets_basic_auth (chunkOracle (List.range 101) 100)
          (List.range 101).length).1 = List.range 101
      ∧ (get_all_collibra_assets_basic_auth (chunkOracle (List.range 101) 100)
          (List.range 101).length).2.length = ((List.range 101).length + 99) / 100
      ∧ (get_paginated_data [] (chunkOracle (List.range 1001) 1000)
          (List.range 1001).length).1 = List.range 1001
      ∧ (get_paginated_data [] (chunkOracle (List.range 1001) 1000)
          (List.range 1001).length).2.length = ((List.range 1001).length + 999) / 1000) :=
  ⟨⟨by simp, by simp⟩,
   pagination_complete_fetch (List.range 101) (List.range 1001) [] (by simp) (by simp)⟩

/-- Run of the assets pagination loop against a server that fails from request
j onwards, from the state after i successful pages: the loop stops at the
failure and returns the records collected so far. -/
theorem assetsLoop_fail {α : Type} (records : List α) (L : Nat) (hL : 0 < L) (j : Nat) :
    ∀ (fuel i : Nat) (reqs : List (Nat × Nat)),
      i ≤ j → j * L < records.length → j - i < fuel →
      (assetsLoop (chunkOracleFail records L j) L fuel i (i * L) (records.take (i * L))
          reqs).1 = records.take (j * L)
      ∧ (assetsLoop (chunkOracleFail records L j) L fuel i (i * L) (records.take (i * L))
          reqs).2.length = reqs.length + (j - i) + 1 := by
  intro fuel
  induction fuel with
  | zero =>
    intro i reqs _ _ hfuel
    omega
  | succ fuel ih =>
    intro i reqs hij hjlt hfuel
    by_cases hji : i = j
    · subst hji
      have hfail : chunkOracleFail records L i i = none := by
        simp [chunkOracleFail]
      simp only [assetsLoop, hfail]
      simp
    · have hilt : i < j := by omega
      have hok : chunkOracleFail records L j i = chunkOracle records L i := by
        simp [chunkOracleFail, hilt]
      have hacc : records.take (i*L) ++ (records.drop (i*L)).take L
          = records.take (i*L + L) := (List.take_add records (i*L) L).symm
      have hmul : (i+1) * L ≤ j * L := Nat.mul_le_mul_right L (by omega)
      have hacc2 : i*L + L = (i+1) * L := (Nat.succ_mul i L).symm
      simp only [assetsLoop, hok, chunkOracle]
      rw [hacc]
      rw [if_neg (by simp [List.length_take]; omega)]
      have hofs : i*L + ((records.drop (i*L)).take L).length = (i+1) * L := by
        simp only [List.length_take, List.length_drop]
        rw [Nat.min_eq_left (by omega), Nat.succ_mul]
      rw [hofs, hacc2]
      have hrec := ih (i+1) (reqs ++ [(i*L, L)]) (by omega) hjlt (by omega)
      refine ⟨hrec.1, ?_⟩
      rw [hrec.2]
      simp only [List.length_append, List.length_singleton]
      omega

/-- Run of the relations pagination loop against a server that fails from
request j onwards, from the state after i successful pages: the failure makes
the function return the empty list, discarding everything collected. -/
theorem relLoop_fail {α : Type} (records : List α) (L : Nat) (hL : 0 < L) (j : Nat) :
    ∀ (fuel i : Nat) (reqs : List (List (String × Nat))),
      i ≤ j → j * L < records.length → j - i < fuel →
      (relLoop (chunkOracleFail records L j) L fuel i (i * L) records.length
          (records.take (i * L)) reqs).1 = []
      ∧ (relLoop (chunkOracleFail records L j) L fuel i (i * L) records.length
          (records.take (i * L)) reqs).2.length = reqs.length + (j - i) + 1 := by
  intro fuel
  induction fuel with
  | zero =>
    intro i reqs _ _ hfuel
    omega
  | succ fuel ih =>
    intro i reqs hij hjlt hfuel
    have himul : i * L ≤ j * L := Nat.mul_le_mul_right L hij
    by_cases hji : i = j
    · subst hji
      have hfail : chunkOracleFail records L i i = none := by
        simp [chunkOracleFail]
      simp only [relLoop]
      rw [if_pos (by simp [List.length_take]; omega)]
      rw [hfail]
      simp
    · have hilt : i < j := by omega
      have hok : chunkOracleFail records L j i = chunkOracle records L i := by
        simp [chunkOracleFail, hilt]
      have hacc : records.take (i*L) ++ (records.drop (i*L)).take L
          = records.take (i*L + L) := (List.take_add records (i*L) L).symm
      have hmul : (i+1) * L ≤ j * L := Nat.mul_le_mul_right L (by omega)
      have hacc2 : i*L + L = (i+1) * L := (Nat.succ_mul i L).symm
      simp only [relLoop]
      rw [if_pos (by simp [List.length_take]; omega)]
      rw [hok]
      simp only [chunkOracle]
      rw [ite_self, hacc]
      have hofs : i*L + ((records.drop (i*L)).take L).length = (i+1) * L := by
        simp only [List.length_take, List.length_drop]
        rw [Nat.min_eq_left (by omega), Nat.succ_mul]
      rw [hofs, hacc2]
      have hrec := ih (i+1) (reqs ++ [[]]) (by omega) hjlt (by omega)
      refine ⟨hrec.1, ?_⟩
      rw [hrec.2]
      simp only [List.length_append, List.length_singleton]
      omega

/-- C4 (amended): when a request fails (transport error or non-2xx), both
fetchers abort the remaining pages without raising, but they differ in what
they return: the assets fetcher returns the partial result collected so far
(the pages before the failure), while the relations fetcher returns the empty
list, discarding the already-collected records.  Either way the failing
request is the last one issued. -/
theorem pagination_failure_behavior {α : Type} (r1 r2 : List α) (ps : List (String × Nat))
    (j1 j2 : Nat) (h1 : j1 * 100 < r1.length) (hj2 : 1 ≤ j2)
    (h2 : j2 * 1000 < r2.length) :
    (get_all_collibra_assets_basic_auth (chunkOracleFail r1 100 j1) r1.length).1
        = r1.take (j1 * 100)
    ∧ (get_all_collibra_assets_basic_auth (chunkOracleFail r1 100 j1) r1.length).2.length
        = j1 + 1
    ∧ (get_paginated_data ps (chunkOracleFail r2 1000 j2) r2.length).1 = ([] : List α)
    ∧ (get_paginated_data ps (chunkOracleFail r2 1000 j2) r2.length).2.length = j2 + 1 := by
  have hj1le : j1 ≤ j1 * 100 := Nat.le_mul_of_pos_right j1 (by omega)
  have hj2le : j2 ≤ j2 * 1000 := Nat.le_mul_of_pos_right j2 (by omega)
  have h1000 : 1000 ≤ j2 * 1000 := by
    calc 1000 = 1 * 1000 := by omega
      _ ≤ j2 * 1000 := Nat.mul_le_mul_right 1000 hj2
  have ha := assetsLoop_fail r1 100 (by omega) j1 r1.length 0 []
    (by omega) h1 (by omega)
  simp only [Nat.zero_mul, List.take_zero, Nat.sub_zero, List.length_nil] at ha
  obtain ⟨f, hf⟩ : ∃ f, r2.length = f + 1 := ⟨r2.length - 1, by omega⟩
  have h0j2 : (0 : Nat) < j2 := hj2
  have hrw : get_paginated_data ps (chunkOracleFail r2 1000 j2) r2.length
      = relLoop (chunkOracleFail r2 1000 j2) 1000 f 1 (1*1000) r2.length
          (r2.take (1*1000)) [[]] := by
    rw [get_paginated_data, hf]
    simp [relLoop, chunkOracleFail, h0j2, chunkOracle,
      Nat.min_eq_left (by omega : 1000 ≤ r2.length)]
    rw [hf]
  have hb := relLoop_fail r2 1000 (by omega) j2 f 1 [[]] hj2 h2 (by omega)
  refine ⟨ha.1, by rw [get_all_collibra_assets_basic_auth, ha.2]; omega, ?_, ?_⟩
  · rw [hrw]
    exact hb.1
  · rw [hrw, hb.2]
    simp only [List.length_singleton]
    omega

/-- Witness for the C4 theorem: 200 records paged by 100 failing at the second
request (assets keep the first page of 100), and 1001 records paged by 1000
failing at the second request (relations return nothing). -/
theorem pagination_failure_behavior_witness :
    (1 * 100 < (List.range 200).length ∧ 1 ≤ 1 ∧ 1 * 1000 < (List.range 1001).length)
    ∧ ((get_all_collibra_assets_basic_auth (chunkOracleFail (List.range 200) 100 1)
          (List.range 200).length).1 = (List.range 200).take (1 * 100)
      ∧ (get_all_collibra_assets_basic_auth (chunkOracleFail (List.range 200) 100 1)
          (List.range 200).length).2.length = 1 + 1
      ∧ (get_paginated_data [] (chunkOracleFail (List.range 1001) 1000 1)
          (List.range 1001).length).1 = ([] : List Nat)
      ∧ (get_paginated_data [] (chunkOracleFail (List.range 1001) 1000 1)
          (List.range 1001).length).2.length = 1 + 1) :=
  ⟨⟨by simp, le_refl 1, by simp⟩,
   pagination_failure_behavior (List.range 200) (List.range 1001) [] 1 1
     (by simp) (le_refl 1) (by simp)⟩

/-- C4 counterexample: a concrete run of get_paginated_data in which the first
response succeeds with one record (reported total 5) and the second request
fails.  The claim requires the partial result [0] collected so far; the code
returns the empty list, discarding it. -/
theorem get_paginated_data_failure_discards :
    (get_paginated_data [] failAfterOnePage 5).1 = []
    ∧ failAfterOnePage 0 = some ([0], 5)
    ∧ failAfterOnePage 1 = none
    ∧ ¬ (get_paginated_data [] failAfterOnePage 5).1 = [0] := by
  exact ⟨rfl, rfl, rfl, by decide⟩

/-- C5: the relations fetcher updates its local params dict with the offset
and limit, but the HTTP requests it actually issues carry no query parameters
at all — on a concrete two-page run with a non-empty caller filter, both
issued requests have an empty parameter set (the requests.get call on line 43
of collibrarestrelations.py omits params; the call passing them is commented
out on line 42). -/
theorem relations_requests_carry_no_parameters :
    (get_paginated_data [("sourceId", 7)] twoPageOracle 5).2 = [[], []]
    ∧ (get_paginated_data [("sourceId", 7)] twoPageOracle 5).1 = [0, 1]
    ∧ ([("sourceId", 7)] : List (String × Nat)) ≠ [] := by
  exact ⟨rfl, rfl, by decide⟩
